import Mathlib

/-!
Shallow embedding of the yawc terminal Wordle game core
(src/game.rs and src/keyboard.rs). Letters are modelled as their byte
values (Nat); words are lists of bytes; the mutable byte buffer that
check_word consumes is modelled by explicit list passing, with a
consumed slot written as 0 exactly as in the source. Terminal I/O is
dropped; the control flow of main_loop is made explicit through a
phase field and a per-event step function.
-/

/-- Per-letter classification, from enum Match in src/game.rs. -/
inductive Match where
  | Correct
  | Misplaced
  | Incorrect
  deriving DecidableEq, Repr

/-- Round outcome, from enum GameState in src/game.rs. -/
inductive GameState where
  | Win
  | Loose
  deriving DecidableEq, Repr

/-- First pass of check_word: for each index, an exact positional match is
marked Correct and the secret letter at that index is overwritten with 0
so it cannot be matched again. Returns the consumed secret buffer and the
marks (Incorrect standing for the not-yet-decided initial value). -/
def pass1 : List Nat → List Nat → List Nat × List Match
  | [], _ => ([], [])
  | s :: ss, [] => (s :: ss, [])
  | s :: ss, g :: gs =>
    let r := pass1 ss gs
    if s = g then (0 :: r.1, Match.Correct :: r.2)
    else (s :: r.1, Match.Incorrect :: r.2)

/-- Consume the first occurrence of byte c in the buffer, writing 0 in its
place, as secret_word.iter().position followed by secret_word[j] = 0 does
in check_word; none when c does not occur. -/
def consumeFirst (c : Nat) : List Nat → Option (List Nat)
  | [] => none
  | b :: bs =>
    if c = b then some (0 :: bs)
    else
      match consumeFirst c bs with
      | some rest => some (b :: rest)
      | none => none

/-- Second pass of check_word: indices already marked (not Incorrect) are
skipped; otherwise the guess letter is looked up among the remaining
secret letters, marking Misplaced and consuming the first occurrence when
found, and leaving Incorrect when not. -/
def pass2 : List Nat → List (Nat × Match) → List Nat × List Match
  | s, [] => (s, [])
  | s, (g, m) :: rest =>
    if m = Match.Incorrect then
      match consumeFirst g s with
      | some s2 =>
        let r := pass2 s2 rest
        (r.1, Match.Misplaced :: r.2)
      | none =>
        let r := pass2 s rest
        (r.1, Match.Incorrect :: r.2)
    else
      let r := pass2 s rest
      (r.1, m :: r.2)

/-- Match evaluator check_word from src/game.rs: pass 1 marks exact
positional matches, pass 2 marks misplaced letters against the remaining
(non-consumed) secret letters. -/
def check_word (secret_word guess : List Nat) : List Match :=
  let p := pass1 secret_word guess
  (pass2 p.1 (guess.zip p.2)).2

/-- Byte values of "qwertyuiopasdfghjklzxcvbnm", the key order used by
Keyboard::new in src/keyboard.rs. -/
def qwertyLetters : List Nat :=
  [113, 119, 101, 114, 116, 121, 117, 105, 111, 112,
   97, 115, 100, 102, 103, 104, 106, 107, 108,
   122, 120, 99, 118, 98, 110, 109]

/-- On-screen keyboard state: each letter paired with its optional
last-seen classification, as struct Keyboard in src/keyboard.rs. -/
abbrev Keyboard := List (Nat × Option Match)

/-- Fresh keyboard with all 26 letters unmarked (Keyboard::new). -/
def Keyboard.new : Keyboard := qwertyLetters.map (fun c => (c, none))

/-- Keyboard::mark_letter: the first entry whose letter matches is set to
the given mark, unconditionally overwriting whatever was stored. -/
def Keyboard.mark_letter : Keyboard → Nat → Match → Keyboard
  | [], _, _ => []
  | (c, m) :: rest, letter, mark =>
    if c = letter then (c, some mark) :: rest
    else (c, m) :: Keyboard.mark_letter rest letter mark

/-- Read the classification stored for a letter: some m for a present
entry (m itself an Option Match), none when the letter is not on the
keyboard. -/
def Keyboard.lookup : Keyboard → Nat → Option (Option Match)
  | [], _ => none
  | (c, m) :: rest, letter =>
    if c = letter then some m else Keyboard.lookup rest letter

/-- Keyboard updates performed by mark_letters in src/game.rs: each
(letter, mark) pair of the submitted guess is fed to mark_letter in
index order. -/
def markAll (kb : Keyboard) (pairs : List (Nat × Match)) : Keyboard :=
  pairs.foldl (fun k p => Keyboard.mark_letter k p.1 p.2) kb

/-- Round state owned by struct Game in src/game.rs (the terminal handle
is I/O and dropped). The phase field makes the implicit control flow of
main_loop explicit: none while the round loop runs, some once the round
loop has broken on a Win or Loose result. -/
structure Game where
  secret_word : List Nat
  guesses : List (List Nat × List Match)
  guess : List Nat
  keyboard : Keyboard
  phase : Option GameState
  deriving DecidableEq, Repr

/-- Word-list membership test is_valid_word from src/game.rs. The WORDS
and ACCEPTABLE constants live in the words module, which is not among
the available sources; per the spec (Word Repository, immutable constant
corpora) they are taken as parameters. -/
def is_valid_word (W A : List (List Nat)) (word : List Nat) : Bool :=
  W.contains word || A.contains word

/-- Bool test for an all-Correct classification row, the comparison
against the array of five Match::Correct used by is_win and is_loose. -/
def allCorrect (ms : List Match) : Bool :=
  decide (ms = List.replicate 5 Match.Correct)

/-- Game::is_win: unwraps the last submitted guess (none models the
panic on an empty history) and tests all-Correct together with at most
six submissions. -/
def is_win (gs : List (List Nat × List Match)) : Option Bool :=
  gs.getLast?.map (fun e => allCorrect e.2 && decide (gs.length ≤ 6))

/-- Game::is_loose: unwraps the last submitted guess (none models the
panic on an empty history) and tests not-all-Correct together with at
least six submissions. -/
def is_loose (gs : List (List Nat × List Match)) : Option Bool :=
  gs.getLast?.map (fun e => !allCorrect e.2 && decide (6 ≤ gs.length))

/-- Game::guess from src/game.rs (named submitGuess because the guess
field takes the Rust method's name slot): a valid word is classified,
fed to the keyboard, appended to the history, and the cleared state is
returned with the resulting phase; an invalid word changes nothing (the
rejection path only renders an animation). -/
def Game.submitGuess (W A : List (List Nat)) (st : Game) : Game :=
  if is_valid_word W A st.guess then
    let ms := check_word st.secret_word st.guess
    let kb := markAll st.keyboard (st.guess.zip ms)
    let gs := st.guesses ++ [(st.guess, ms)]
    let ph : Option GameState :=
      if (is_win gs).getD false then some GameState.Win
      else if (is_loose gs).getD false then some GameState.Loose
      else none
    { st with guesses := gs, guess := [], keyboard := kb, phase := ph }
  else st

/-- Key events the round loop of main_loop reacts to (resize and mouse
events touch no game state and are omitted). -/
inductive Ev where
  | type (c : Nat)
  | back
  | enter
  deriving DecidableEq, Repr

/-- ASCII lowercase letter test, the guard c.is_ascii_alphabetic() and
c.is_ascii_lowercase() of main_loop. -/
def isLowerAlpha (c : Nat) : Bool :=
  decide (97 ≤ c) && decide (c ≤ 122)

/-- One iteration of the round loop in Game::main_loop: a lowercase
letter is appended while the guess is under 5 characters, Backspace pops
the last character, Enter submits only a full 5-character guess; after
the round has ended (phase set) the loop has broken, so no further event
changes the state. -/
def stepRound (W A : List (List Nat)) (st : Game) (e : Ev) : Game :=
  if st.phase.isSome then st
  else
    match e with
    | Ev.type c =>
      if isLowerAlpha c && decide (st.guess.length < 5) then
        { st with guess := st.guess ++ [c] }
      else st
    | Ev.back => { st with guess := st.guess.dropLast }
    | Ev.enter =>
      if st.guess.length = 5 then Game.submitGuess W A st else st

/-- Game::start_new_round: clears the current guess and the history,
re-selects the secret word (the random choice from WORDS is modelled by
the newSecret parameter), and replaces the keyboard with a fresh one;
the new round starts playing. -/
def Game.start_new_round (st : Game) (newSecret : List Nat) : Game :=
  { secret_word := newSecret, guesses := [], guess := [],
    keyboard := Keyboard.new, phase := none }

/-- Round-state invariants of the spec data model, strengthened by the
facts that the secret word has 5 letters and that a still-playing round
has fewer than 6 submissions (which is what lets submission preserve the
bound of 6). -/
def GameInv (st : Game) : Prop :=
  st.secret_word.length = 5 ∧
  st.guess.length ≤ 5 ∧
  st.guesses.length ≤ 6 ∧
  (∀ e ∈ st.guesses, e.1.length = 5 ∧ e.2.length = 5) ∧
  (st.phase = none → st.guesses.length < 6)

instance (st : Game) : Decidable (GameInv st) := by
  unfold GameInv; infer_instance

/-- Number of positions of the pair list (guess letter, mark) carrying
letter c and a mark other than Incorrect. -/
def mfor (c : Nat) (l : List (Nat × Match)) : Nat :=
  (l.filter (fun p => decide (p.1 = c) && decide (p.2 ≠ Match.Incorrect))).length

/-- Number of positions at which the guess has letter c and the
classification is Correct or Misplaced. -/
def markedFor (c : Nat) (g : List Nat) (ms : List Match) : Nat :=
  mfor c (g.zip ms)

/-! Structural lemmas about the two passes. -/

/-- Length of the consumed buffer returned by pass 1. -/
lemma pass1_fst_length : ∀ ss gs : List Nat, (pass1 ss gs).1.length = ss.length
  | [], _ => by simp [pass1]
  | _ :: _, [] => by simp [pass1]
  | s :: ss, g :: gs => by
    have ih := pass1_fst_length ss gs
    by_cases h : s = g <;> simp [pass1, h, ih]

/-- Length of the mark list returned by pass 1. -/
lemma pass1_snd_length : ∀ ss gs : List Nat,
    (pass1 ss gs).2.length = min ss.length gs.length
  | [], _ => by simp [pass1]
  | _ :: _, [] => by simp [pass1]
  | s :: ss, g :: gs => by
    have ih := pass1_snd_length ss gs
    by_cases h : s = g <;> simp [pass1, h, ih] <;> omega

/-- Length of the mark list returned by pass 2. -/
lemma pass2_snd_length : ∀ (prs : List (Nat × Match)) (s : List Nat),
    (pass2 s prs).2.length = prs.length
  | [], _ => by simp [pass2]
  | (g, m) :: rest, s => by
    by_cases hm : m = Match.Incorrect
    · cases hcf : consumeFirst g s with
      | some s2 => simp [pass2, hm, hcf, pass2_snd_length rest s2]
      | none => simp [pass2, hm, hcf, pass2_snd_length rest s]
    · simp [pass2, hm, pass2_snd_length rest s]

/-- Evaluator output length. -/
lemma check_word_length (s g : List Nat) :
    (check_word s g).length = min g.length (min s.length g.length) := by
  simp [check_word, pass2_snd_length, List.length_zip, pass1_snd_length]

/-- Pass 1 marks Correct at exactly the indices of a positional match. -/
lemma pass1_marks : ∀ (ss gs : List Nat) (i : Nat),
    ((pass1 ss gs).2)[i]? = some Match.Correct ↔ (ss[i]? ≠ none ∧ ss[i]? = gs[i]?)
  | [], gs, i => by simp [pass1]
  | s :: ss, [], i => by
    simp only [pass1, List.getElem?_nil]
    constructor
    · intro h
      simp at h
    · rintro ⟨h1, h2⟩
      exact absurd h2 h1
  | s :: ss, g :: gs, 0 => by
    by_cases h : s = g <;> simp [pass1, h]
  | s :: ss, g :: gs, i + 1 => by
    have ih := pass1_marks ss gs i
    by_cases h : s = g <;> simp [pass1, h, ih]

/-- Pass 2 neither creates nor destroys Correct marks: its output mark at
an index is Correct exactly when the incoming mark there was Correct. -/
lemma pass2_marks : ∀ (prs : List (Nat × Match)) (s : List Nat) (i : Nat),
    ((pass2 s prs).2)[i]? = some Match.Correct ↔
      (prs[i]?).map Prod.snd = some Match.Correct
  | [], s, i => by simp [pass2]
  | (g, m) :: rest, s, i => by
    by_cases hm : m = Match.Incorrect
    · cases hcf : consumeFirst g s with
      | some s2 =>
        cases i with
        | zero => simp [pass2, hm, hcf]
        | succ j => simpa [pass2, hm, hcf] using pass2_marks rest s2 j
      | none =>
        cases i with
        | zero => simp [pass2, hm, hcf]
        | succ j => simpa [pass2, hm, hcf] using pass2_marks rest s j
    · cases i with
      | zero => simp [pass2, hm]
      | succ j => simpa [pass2, hm] using pass2_marks rest s j

/-- Index lookup through zip, projected to the second component. -/
lemma zip_snd_correct : ∀ (g : List Nat) (ms : List Match) (i : Nat),
    ((g.zip ms)[i]?).map Prod.snd = some Match.Correct ↔
      (g[i]? ≠ none ∧ ms[i]? = some Match.Correct)
  | [], ms, i => by simp
  | a :: g, [], i => by simp
  | a :: g, m :: ms, 0 => by simp
  | a :: g, m :: ms, i + 1 => by simpa using zip_snd_correct g ms i

/-! Counting lemmas: each Correct or Misplaced mark for a letter consumes
one occurrence of that letter in the secret buffer, so the number of
marks never exceeds the letter's multiplicity in the secret word. The
consumed slots are written as 0, which is why the letter counted must be
nonzero (every ASCII letter is). -/

/-- Unfolding of mfor over a cons cell. -/
lemma mfor_cons (c a : Nat) (b : Match) (t : List (Nat × Match)) :
    mfor c ((a, b) :: t) =
      (if a = c ∧ b ≠ Match.Incorrect then 1 else 0) + mfor c t := by
  by_cases h1 : a = c
  · by_cases h2 : b = Match.Incorrect <;>
      simp [mfor, List.filter_cons, h1, h2] <;> omega
  · simp [mfor, List.filter_cons, h1]

/-- Pass 1 conservation: occurrences of a nonzero letter in the secret
split into those still in the buffer and those consumed by a Correct
mark at a position where the guess has that letter. -/
lemma count_pass1 : ∀ (ss gs : List Nat) (c : Nat), c ≠ 0 →
    (pass1 ss gs).1.count c + mfor c (gs.zip (pass1 ss gs).2) = ss.count c
  | [], gs, c, _ => by simp [pass1, mfor]
  | s :: ss, [], c, _ => by simp [pass1, mfor]
  | s :: ss, g :: gs, c, hc => by
    have ih := count_pass1 ss gs c hc
    have h0 : ((0 : Nat) = c) = False := by simp [Ne.symm hc]
    by_cases h : s = g
    · have he : pass1 (s :: ss) (g :: gs) =
          (0 :: (pass1 ss gs).1, Match.Correct :: (pass1 ss gs).2) := by
        simp [pass1, h]
      rw [he]
      simp only [List.zip_cons_cons, mfor_cons, List.count_cons, h0]
      by_cases hgc : g = c <;> subst h <;> simp [hgc, h0] <;> omega
    · have he : pass1 (s :: ss) (g :: gs) =
          (s :: (pass1 ss gs).1, Match.Incorrect :: (pass1 ss gs).2) := by
        simp [pass1, h]
      rw [he]
      simp only [List.zip_cons_cons, mfor_cons, List.count_cons]
      by_cases hsc : s = c <;> by_cases hgc : g = c <;>
        simp [hsc, hgc] <;> omega

/-- Consuming the first occurrence of letter a removes exactly one
occurrence of a (the consumed slot becomes 0, not counted for a nonzero
letter) and leaves the multiplicity of every other letter unchanged. -/
lemma count_consumeFirst : ∀ (s : List Nat) (a c : Nat) (s2 : List Nat), c ≠ 0 →
    consumeFirst a s = some s2 →
    s.count c = s2.count c + (if a = c then 1 else 0)
  | [], a, c, s2, _, h => by simp [consumeFirst] at h
  | b :: bs, a, c, s2, hc, h => by
    by_cases hab : a = b
    · simp only [consumeFirst, if_pos hab, Option.some.injEq] at h
      subst h
      have h0 : ¬((0 : Nat) = c) := fun hh => hc hh.symm
      subst hab
      by_cases hac : a = c <;> simp [List.count_cons, hac, h0]
    · simp only [consumeFirst, if_neg hab] at h
      cases hcf : consumeFirst a bs with
      | none => rw [hcf] at h; simp at h
      | some rest =>
        rw [hcf] at h
        simp only [Option.some.injEq] at h
        subst h
        have ih := count_consumeFirst bs a c rest hc hcf
        by_cases hbc : b = c <;> simp [List.count_cons, hbc] <;> omega

/-- Pass 2 conservation: the marks for a nonzero letter present in the
output but not in the input each consume one occurrence of that letter
from the buffer. -/
lemma count_pass2 : ∀ (prs : List (Nat × Match)) (s : List Nat) (c : Nat), c ≠ 0 →
    (pass2 s prs).1.count c + mfor c ((prs.map Prod.fst).zip (pass2 s prs).2) =
      s.count c + mfor c prs
  | [], s, c, _ => by simp [pass2, mfor]
  | (g, m) :: rest, s, c, hc => by
    by_cases hm : m = Match.Incorrect
    · cases hcf : consumeFirst g s with
      | some s2 =>
        have ih := count_pass2 rest s2 c hc
        have hcount := count_consumeFirst s g c s2 hc hcf
        have he : pass2 s ((g, m) :: rest) =
            ((pass2 s2 rest).1, Match.Misplaced :: (pass2 s2 rest).2) := by
          simp [pass2, hm, hcf]
        rw [he]
        simp only [List.map_cons, List.zip_cons_cons, mfor_cons, hm]
        by_cases hgc : g = c <;> simp [hgc] at hcount ⊢ <;> omega
      | none =>
        have ih := count_pass2 rest s c hc
        have he : pass2 s ((g, m) :: rest) =
            ((pass2 s rest).1, Match.Incorrect :: (pass2 s rest).2) := by
          simp [pass2, hm, hcf]
        rw [he]
        simp only [List.map_cons, List.zip_cons_cons, mfor_cons, hm]
        simp
        omega
    · have ih := count_pass2 rest s c hc
      have he : pass2 s ((g, m) :: rest) =
          ((pass2 s rest).1, m :: (pass2 s rest).2) := by
        simp [pass2, hm]
      rw [he]
      simp only [List.map_cons, List.zip_cons_cons, mfor_cons]
      by_cases hgc : g = c <;> simp [hgc, hm] <;> omega

/-- Evaluating a word against itself makes every position an exact match
in pass 1. -/
lemma pass1_self : ∀ w : List Nat,
    pass1 w w = (List.replicate w.length 0, List.replicate w.length Match.Correct)
  | [] => by simp [pass1]
  | a :: w => by simp [pass1, pass1_self w, List.replicate_succ]

/-- Pass 2 copies every mark unchanged when no incoming mark is
Incorrect. -/
lemma pass2_keep : ∀ (prs : List (Nat × Match)) (s : List Nat),
    (∀ p ∈ prs, p.2 ≠ Match.Incorrect) → (pass2 s prs).2 = prs.map Prod.snd
  | [], s, _ => by simp [pass2]
  | (g, m) :: rest, s, h => by
    have hm : m ≠ Match.Incorrect := h (g, m) (by simp)
    have he : pass2 s ((g, m) :: rest) =
        ((pass2 s rest).1, m :: (pass2 s rest).2) := by
      simp [pass2, hm]
    rw [he]
    simp [pass2_keep rest s (fun p hp => h p (by simp [hp]))]

/-- Evaluator applied to a word against itself: all marks Correct. -/
lemma check_word_self (w : List Nat) :
    check_word w w = List.replicate w.length Match.Correct := by
  unfold check_word
  rw [pass1_self]
  have hz : ∀ p ∈ w.zip (List.replicate w.length Match.Correct),
      p.2 ≠ Match.Incorrect := by
    intro p hp
    have hmem := (List.of_mem_zip hp).2
    have := List.eq_of_mem_replicate hmem
    simp [this]
  rw [pass2_keep _ _ hz]
  exact List.map_snd_zip _ _ (by simp)

/-- Value unwrapped by is_win after a new entry is appended. -/
lemma is_win_concat (gs : List (List Nat × List Match))
    (e : List Nat × List Match) :
    (is_win (gs ++ [e])).getD false =
      (allCorrect e.2 && decide (gs.length + 1 ≤ 6)) := by
  simp [is_win, List.getLast?_concat]

/-- Value unwrapped by is_loose after a new entry is appended. -/
lemma is_loose_concat (gs : List (List Nat × List Match))
    (e : List Nat × List Match) :
    (is_loose (gs ++ [e])).getD false =
      (!allCorrect e.2 && decide (6 ≤ gs.length + 1)) := by
  simp [is_loose, List.getLast?_concat]

/-- Shape of the state produced by an accepted submission. -/
lemma submitGuess_valid (W A : List (List Nat)) (st : Game)
    (hv : is_valid_word W A st.guess = true) :
    Game.submitGuess W A st =
      { st with
        guesses := st.guesses ++
          [(st.guess, check_word st.secret_word st.guess)],
        guess := [],
        keyboard := markAll st.keyboard
          (st.guess.zip (check_word st.secret_word st.guess)),
        phase :=
          if (is_win (st.guesses ++
              [(st.guess, check_word st.secret_word st.guess)])).getD false
          then some GameState.Win
          else if (is_loose (st.guesses ++
              [(st.guess, check_word st.secret_word st.guess)])).getD false
          then some GameState.Loose
          else none } := by
  simp [Game.submitGuess, hv]

/-! Claim theorems. -/

/-- C1: for 5-letter secret and guess, check_word returns Correct at
exactly the indices of a positional match, and for every (nonzero ASCII)
letter the number of positions classified Correct or Misplaced carrying
that guess letter never exceeds the letter's multiplicity in the secret
word. -/
theorem spec_C1 (s g : List Nat) (hs : s.length = 5) (hg : g.length = 5) :
    (∀ i, i < 5 →
      ((check_word s g)[i]? = some Match.Correct ↔ s[i]? = g[i]?)) ∧
    (∀ c : Nat, c ≠ 0 → markedFor c g (check_word s g) ≤ s.count c) := by
  constructor
  · intro i hi
    have h1 : (check_word s g)[i]? = some Match.Correct ↔
        ((g.zip (pass1 s g).2)[i]?).map Prod.snd = some Match.Correct := by
      unfold check_word
      exact pass2_marks _ _ i
    rw [h1, zip_snd_correct, pass1_marks]
    have hgs : g[i]? ≠ none := by
      simp [List.getElem?_eq_none_iff]; omega
    have hss : s[i]? ≠ none := by
      simp [List.getElem?_eq_none_iff]; omega
    tauto
  · intro c hc
    have hlen : g.length ≤ (pass1 s g).2.length := by
      rw [pass1_snd_length]; omega
    have hfst : ((g.zip (pass1 s g).2).map Prod.fst) = g :=
      List.map_fst_zip _ _ hlen
    have h2 := count_pass2 (g.zip (pass1 s g).2) (pass1 s g).1 c hc
    rw [hfst] at h2
    have h1 := count_pass1 s g c hc
    have hck : markedFor c g (check_word s g) =
        mfor c (g.zip (pass2 (pass1 s g).1 (g.zip (pass1 s g).2)).2) := by
      simp [markedFor, check_word]
    rw [hck]
    omega

/-- Witness for C1 at secret "allot", guess "lolly": index 2 is the only
positional match and the letter l (108) is marked at most as often as it
occurs in the secret. -/
theorem spec_C1_witness :
    ((check_word [97, 108, 108, 111, 116] [108, 111, 108, 108, 121])[2]? =
        some Match.Correct ↔
      ([97, 108, 108, 111, 116] : List Nat)[2]? =
        ([108, 111, 108, 108, 121] : List Nat)[2]?) ∧
    markedFor 108 [108, 111, 108, 108, 121]
        (check_word [97, 108, 108, 111, 116] [108, 111, 108, 108, 121]) ≤
      ([97, 108, 108, 111, 116] : List Nat).count 108 :=
  ⟨(spec_C1 [97, 108, 108, 111, 116] [108, 111, 108, 108, 121]
      (by decide) (by decide)).1 2 (by decide),
    (spec_C1 [97, 108, 108, 111, 116] [108, 111, 108, 108, 121]
      (by decide) (by decide)).2 108 (by decide)⟩

/-- C2: the two-pass consumption rule on the golden duplicate-letter
fixture: secret "allot" against guess "lolly" classifies as
Misplaced, Misplaced, Correct, Incorrect, Incorrect (pass 1 marks index
2 Correct and consumes the second l; pass 2 gives the first guess l the
remaining secret l and the o the secret o, leaving the fourth l and the
y unmatched). -/
theorem spec_C2 :
    check_word [97, 108, 108, 111, 116] [108, 111, 108, 108, 121] =
      [Match.Misplaced, Match.Misplaced, Match.Correct,
       Match.Incorrect, Match.Incorrect] := by decide

/-- C3: a 5-letter word evaluated against itself is classified all
Correct, and submitting the secret word itself (while the round is still
playing, that is fewer than 6 guesses so far) ends the round as Won. -/
theorem spec_C3 :
    (∀ w : List Nat, w.length = 5 →
      check_word w w = List.replicate 5 Match.Correct) ∧
    (∀ (W A : List (List Nat)) (st : Game),
      st.guess = st.secret_word → st.secret_word.length = 5 →
      st.guesses.length < 6 → is_valid_word W A st.guess = true →
      (Game.submitGuess W A st).phase = some GameState.Win) := by
  constructor
  · intro w hw
    rw [check_word_self, hw]
  · intro W A st hgs hsec hlt hv
    rw [submitGuess_valid W A st hv]
    simp only [hgs, check_word_self, hsec, is_win_concat]
    simp [allCorrect, show st.guesses.length + 1 ≤ 6 from by omega]

/-- Witness for C3: the secret "crane" guessed as "crane" is all Correct
and wins the round. -/
theorem spec_C3_witness :
    check_word [99, 114, 97, 110, 101] [99, 114, 97, 110, 101] =
      List.replicate 5 Match.Correct ∧
    (Game.submitGuess [[99, 114, 97, 110, 101]] []
        { secret_word := [99, 114, 97, 110, 101], guesses := [],
          guess := [99, 114, 97, 110, 101], keyboard := Keyboard.new,
          phase := none }).phase = some GameState.Win :=
  ⟨spec_C3.1 [99, 114, 97, 110, 101] (by decide),
    spec_C3.2 [[99, 114, 97, 110, 101]] []
      { secret_word := [99, 114, 97, 110, 101], guesses := [],
        guess := [99, 114, 97, 110, 101], keyboard := Keyboard.new,
        phase := none } rfl (by decide) (by decide) (by decide)⟩

/-- C4: after an accepted submission from a playing state satisfying the
round invariants, the round is Won exactly when the classification is
all Correct, Lost exactly when the history has reached 6 entries with
the last not all Correct, still playing exactly when neither (so a run
of never-all-Correct guesses is Lost precisely on the 6th accepted
submission), and never both Won and Lost. -/
theorem spec_C4 (W A : List (List Nat)) (st : Game)
    (hInv : GameInv st) (hph : st.phase = none)
    (hv : is_valid_word W A st.guess = true) :
    ((Game.submitGuess W A st).phase = some GameState.Win ↔
      check_word st.secret_word st.guess = List.replicate 5 Match.Correct) ∧
    ((Game.submitGuess W A st).phase = some GameState.Loose ↔
      ((Game.submitGuess W A st).guesses.length = 6 ∧
        check_word st.secret_word st.guess ≠
          List.replicate 5 Match.Correct)) ∧
    ((Game.submitGuess W A st).phase = none ↔
      ((Game.submitGuess W A st).guesses.length < 6 ∧
        check_word st.secret_word st.guess ≠
          List.replicate 5 Match.Correct)) ∧
    ¬((Game.submitGuess W A st).phase = some GameState.Win ∧
      (Game.submitGuess W A st).phase = some GameState.Loose) := by
  have hlt : st.guesses.length < 6 := hInv.2.2.2.2 hph
  rw [submitGuess_valid W A st hv]
  simp only [is_win_concat, is_loose_concat, List.length_append,
    List.length_cons, List.length_nil]
  by_cases hac : check_word st.secret_word st.guess =
      List.replicate 5 Match.Correct
  · have hacl : check_word st.secret_word st.guess =
        [Match.Correct, Match.Correct, Match.Correct, Match.Correct,
         Match.Correct] := by simpa using hac
    simp [allCorrect, hacl,
      show st.guesses.length + 1 ≤ 6 from by omega,
      show st.guesses.length ≤ 5 from by omega]
  · have hacl : ¬check_word st.secret_word st.guess =
        [Match.Correct, Match.Correct, Match.Correct, Match.Correct,
         Match.Correct] := by simpa using hac
    by_cases hn : st.guesses.length = 5
    · simp [allCorrect, hacl, hn]
    · simp [allCorrect, hacl,
        show st.guesses.length < 5 from by omega,
        show ¬(5 ≤ st.guesses.length) from by omega,
        show st.guesses.length + 1 < 6 from by omega,
        show ¬(st.guesses.length + 1 = 6) from by omega]

/-- C5 counterexample: mark_letter does NOT merge in a non-decreasing
precedence direction. Marking the letter l (108) Correct and then
Incorrect leaves Incorrect stored: the Correct record is downgraded,
refuting the claim at this concrete call sequence (the sequence arises
in play, for example from the three l occurrences of the guess "lolly"
against the secret "allot"). -/
theorem spec_C5_counterexample :
    Keyboard.lookup (Keyboard.mark_letter Keyboard.new 108 Match.Correct)
        108 = some (some Match.Correct) ∧
    Keyboard.lookup
        (Keyboard.mark_letter
          (Keyboard.mark_letter Keyboard.new 108 Match.Correct)
          108 Match.Incorrect) 108 = some (some Match.Incorrect) := by
  decide

/-- C5 amended: mark_letter is last-write-wins. For a letter present on
the keyboard, the stored classification after a mark call is exactly the
mark just given, whatever was stored before (so a Correct record can be
downgraded); entries for other letters are untouched. -/
theorem spec_C5 (kb : Keyboard) (c : Nat) (m : Match)
    (h : c ∈ kb.map Prod.fst) :
    Keyboard.lookup (Keyboard.mark_letter kb c m) c = some (some m) ∧
    (∀ d, d ≠ c →
      Keyboard.lookup (Keyboard.mark_letter kb c m) d =
        Keyboard.lookup kb d) := by
  induction kb with
  | nil => simp at h
  | cons p rest ih =>
    obtain ⟨a, b⟩ := p
    by_cases hac : a = c
    · subst hac
      refine ⟨by simp [Keyboard.mark_letter, Keyboard.lookup], ?_⟩
      intro d hd
      have had : ¬(a = d) := fun hh => hd (hh ▸ rfl)
      simp [Keyboard.mark_letter, Keyboard.lookup, had]
    · have hmem : c ∈ rest.map Prod.fst := by
        rcases (by simpa using h) with h1 | h2
        · exact absurd h1.symm hac
        · simpa using h2
      obtain ⟨ih1, ih2⟩ := ih hmem
      refine ⟨?_, ?_⟩
      · simpa [Keyboard.mark_letter, Keyboard.lookup, hac] using ih1
      · intro d hd
        by_cases had : a = d
        · simp [Keyboard.mark_letter, Keyboard.lookup, hac, had, hd]
        · simpa [Keyboard.mark_letter, Keyboard.lookup, hac, had]
            using ih2 d hd

/-- Witness for the amended C5: marking q (113) Misplaced on a fresh
keyboard stores Misplaced for q and leaves w (119) untouched. -/
theorem spec_C5_witness :
    Keyboard.lookup (Keyboard.mark_letter Keyboard.new 113 Match.Misplaced)
        113 = some (some Match.Misplaced) ∧
    Keyboard.lookup (Keyboard.mark_letter Keyboard.new 113 Match.Misplaced)
        119 = Keyboard.lookup Keyboard.new 119 :=
  ⟨(spec_C5 Keyboard.new 113 Match.Misplaced (by decide)).1,
    (spec_C5 Keyboard.new 113 Match.Misplaced (by decide)).2 119 (by decide)⟩

/-- C6: a submitted 5-letter guess outside both word lists changes
nothing: the whole state is returned as-is, so in particular the guess
history and the current guess are untouched and stay available for
correction. -/
theorem spec_C6 (W A : List (List Nat)) (st : Game)
    (h : is_valid_word W A st.guess = false) :
    Game.submitGuess W A st = st ∧
    (Game.submitGuess W A st).guesses = st.guesses ∧
    (Game.submitGuess W A st).guess = st.guess := by
  refine ⟨?_, ?_, ?_⟩ <;> simp [Game.submitGuess, h]

/-- Witness for C6: the guess "zzzzz" is in neither list, so submitting
it against the word list containing only "crane" is the identity. -/
theorem spec_C6_witness :
    Game.submitGuess [[99, 114, 97, 110, 101]] []
        { secret_word := [99, 114, 97, 110, 101], guesses := [],
          guess := [122, 122, 122, 122, 122], keyboard := Keyboard.new,
          phase := none } =
      { secret_word := [99, 114, 97, 110, 101], guesses := [],
        guess := [122, 122, 122, 122, 122], keyboard := Keyboard.new,
        phase := none } :=
  (spec_C6 [[99, 114, 97, 110, 101]] []
    { secret_word := [99, 114, 97, 110, 101], guesses := [],
      guess := [122, 122, 122, 122, 122], keyboard := Keyboard.new,
      phase := none } (by decide)).1

/-- C7: typing a letter when the current guess already has 5 characters,
and pressing Backspace when it is empty, both return the state unchanged
(and, being total functions of the step relation, raise nothing). -/
theorem spec_C7 (W A : List (List Nat)) (st : Game) (c : Nat) :
    (st.guess.length = 5 → stepRound W A st (Ev.type c) = st) ∧
    (st.guess = [] → stepRound W A st Ev.back = st) := by
  obtain ⟨sw, gs, g, kb, ph⟩ := st
  constructor
  · intro h5
    simp only at h5
    cases ph with
    | some x => simp [stepRound]
    | none => simp [stepRound, h5]
  · intro h0
    simp only at h0
    subst h0
    cases ph with
    | some x => simp [stepRound]
    | none => simp [stepRound]

/-- Witness for C7: with a full guess "crane" typing the letter a (97)
is a no-op, and with an empty guess Backspace is a no-op. -/
theorem spec_C7_witness :
    stepRound [[99, 114, 97, 110, 101]] []
        { secret_word := [99, 114, 97, 110, 101], guesses := [],
          guess := [99, 114, 97, 110, 101], keyboard := Keyboard.new,
          phase := none } (Ev.type 97) =
      { secret_word := [99, 114, 97, 110, 101], guesses := [],
        guess := [99, 114, 97, 110, 101], keyboard := Keyboard.new,
        phase := none } ∧
    stepRound [[99, 114, 97, 110, 101]] []
        { secret_word := [99, 114, 97, 110, 101], guesses := [],
          guess := [], keyboard := Keyboard.new, phase := none } Ev.back =
      { secret_word := [99, 114, 97, 110, 101], guesses := [],
        guess := [], keyboard := Keyboard.new, phase := none } :=
  ⟨(spec_C7 [[99, 114, 97, 110, 101]] []
      { secret_word := [99, 114, 97, 110, 101], guesses := [],
        guess := [99, 114, 97, 110, 101], keyboard := Keyboard.new,
        phase := none } 97).1 (by decide),
    (spec_C7 [[99, 114, 97, 110, 101]] []
      { secret_word := [99, 114, 97, 110, 101], guesses := [],
        guess := [], keyboard := Keyboard.new, phase := none } 97).2 rfl⟩

/-- C8: every operation of the round state machine (typing a letter,
backspace, submitting, starting a new round with a 5-letter secret)
preserves the round invariants: the current guess holds at most 5
characters, the history holds at most 6 entries, every entry pairs a
5-character word with a 5-entry classification, the secret has 5
letters, and a still-playing round has room for another guess. -/
theorem spec_C8 (W A : List (List Nat)) (st : Game) (e : Ev) (s : List Nat)
    (hInv : GameInv st) :
    GameInv (stepRound W A st e) ∧
    (s.length = 5 → GameInv (Game.start_new_round st s)) := by
  obtain ⟨h1, h2, h3, h4, h5⟩ := hInv
  constructor
  · cases hph : st.phase with
    | some x =>
      have hstep : stepRound W A st e = st := by simp [stepRound, hph]
      rw [hstep]; exact ⟨h1, h2, h3, h4, h5⟩
    | none =>
      cases e with
      | type c =>
        by_cases hg : (isLowerAlpha c && decide (st.guess.length < 5)) = true
        · have hlen : st.guess.length < 5 :=
            of_decide_eq_true ((Bool.and_eq_true _ _).mp hg).2
          have hstep : stepRound W A st (Ev.type c) =
              { st with guess := st.guess ++ [c] } := by
            simp [stepRound, hph, hg]
          rw [hstep]
          exact ⟨h1, by simp; omega, h3, h4, fun _ => h5 hph⟩
        · have hstep : stepRound W A st (Ev.type c) = st := by
            simp only [stepRound, hph, Option.isSome_none, Bool.false_eq_true,
              if_false]
            simp [hg]
          rw [hstep]; exact ⟨h1, h2, h3, h4, h5⟩
      | back =>
        have hstep : stepRound W A st Ev.back =
            { st with guess := st.guess.dropLast } := by
          simp [stepRound, hph]
        rw [hstep]
        refine ⟨h1, ?_, h3, h4, fun _ => h5 hph⟩
        show st.guess.dropLast.length ≤ 5
        rw [List.length_dropLast]; omega
      | enter =>
        by_cases hlen : st.guess.length = 5
        · by_cases hv : is_valid_word W A st.guess = true
          · have hstep : stepRound W A st Ev.enter =
                Game.submitGuess W A st := by
              simp [stepRound, hph, hlen]
            rw [hstep, submitGuess_valid W A st hv]
            have hms : (check_word st.secret_word st.guess).length = 5 := by
              rw [check_word_length]; omega
            refine ⟨h1, by simp, ?_, ?_, ?_⟩
            · show (st.guesses ++ [_]).length ≤ 6
              have := h5 hph
              simp [List.length_append]; omega
            · intro p hp
              rcases List.mem_append.mp hp with hp | hp
              · exact h4 p hp
              · rcases List.mem_singleton.mp hp with rfl
                exact ⟨hlen, hms⟩
            · intro hpn
              show (st.guesses ++ [_]).length < 6
              simp only [List.length_append, List.length_cons,
                List.length_nil]
              have hn6 := h5 hph
              split at hpn
              · simp at hpn
              · split at hpn
                · simp at hpn
                · rename_i hb1 hb2
                  rw [is_win_concat] at hb1
                  rw [is_loose_concat] at hb2
                  by_cases hball :
                      allCorrect (check_word st.secret_word st.guess) = true
                  · rw [hball] at hb1
                    simp at hb1
                    omega
                  · rw [Bool.not_eq_true] at hball
                    rw [hball] at hb2
                    simp at hb2
                    omega
          · have hstep : stepRound W A st Ev.enter = st := by
              simp [stepRound, hph, hlen, Game.submitGuess, hv]
            rw [hstep]; exact ⟨h1, h2, h3, h4, h5⟩
        · have hstep : stepRound W A st Ev.enter = st := by
            simp [stepRound, hph, hlen]
          rw [hstep]; exact ⟨h1, h2, h3, h4, h5⟩
  · intro hs
    simp [GameInv, Game.start_new_round, hs]

/-- Witness for C8: the round invariants survive typing the letter a
(97) in a fresh round with secret "crane", and survive starting a new
round there. -/
theorem spec_C8_witness :
    GameInv (stepRound [[99, 114, 97, 110, 101]] []
      { secret_word := [99, 114, 97, 110, 101], guesses := [],
        guess := [], keyboard := Keyboard.new, phase := none }
      (Ev.type 97)) ∧
    GameInv (Game.start_new_round
      { secret_word := [99, 114, 97, 110, 101], guesses := [],
        guess := [], keyboard := Keyboard.new, phase := none }
      [99, 114, 97, 110, 101]) :=
  ⟨(spec_C8 [[99, 114, 97, 110, 101]] []
      { secret_word := [99, 114, 97, 110, 101], guesses := [],
        guess := [], keyboard := Keyboard.new, phase := none }
      (Ev.type 97) [99, 114, 97, 110, 101] (by decide)).1,
    (spec_C8 [[99, 114, 97, 110, 101]] []
      { secret_word := [99, 114, 97, 110, 101], guesses := [],
        guess := [], keyboard := Keyboard.new, phase := none }
      (Ev.type 97) [99, 114, 97, 110, 101] (by decide)).2 (by decide)⟩

/-- C9: after start_new_round the history and the current guess are
empty, the keyboard is the fresh one with all 26 letters unmarked, the
round is playing again, and the secret word is the newly selected word
from the repository (modelled by the parameter s with s drawn from W;
nothing requires it to differ from the previous secret). -/
theorem spec_C9 (W : List (List Nat)) (st : Game) (s : List Nat)
    (hs : s ∈ W) :
    (Game.start_new_round st s).guesses = [] ∧
    (Game.start_new_round st s).guess = [] ∧
    (Game.start_new_round st s).keyboard = Keyboard.new ∧
    (Game.start_new_round st s).keyboard.map Prod.snd =
      List.replicate 26 none ∧
    (Game.start_new_round st s).secret_word ∈ W ∧
    (Game.start_new_round st s).phase = none :=
  ⟨rfl, rfl, rfl,
    (by decide : Keyboard.new.map Prod.snd = List.replicate 26 none),
    hs, rfl⟩

/-- Witness for C9: starting a new round over a finished "crane" round,
selecting "crane" again from the repository. -/
theorem spec_C9_witness :
    (Game.start_new_round
        { secret_word := [99, 114, 97, 110, 101],
          guesses := [([99, 114, 97, 110, 101],
            List.replicate 5 Match.Correct)],
          guess := [], keyboard := Keyboard.new,
          phase := some GameState.Win }
        [99, 114, 97, 110, 101]).guesses = [] ∧
    (Game.start_new_round
        { secret_word := [99, 114, 97, 110, 101],
          guesses := [([99, 114, 97, 110, 101],
            List.replicate 5 Match.Correct)],
          guess := [], keyboard := Keyboard.new,
          phase := some GameState.Win }
        [99, 114, 97, 110, 101]).secret_word ∈ [[99, 114, 97, 110, 101]] :=
  ⟨(spec_C9 [[99, 114, 97, 110, 101]]
      { secret_word := [99, 114, 97, 110, 101],
        guesses := [([99, 114, 97, 110, 101],
          List.replicate 5 Match.Correct)],
        guess := [], keyboard := Keyboard.new,
        phase := some GameState.Win }
      [99, 114, 97, 110, 101] (by decide)).1,
    (spec_C9 [[99, 114, 97, 110, 101]]
      { secret_word := [99, 114, 97, 110, 101],
        guesses := [([99, 114, 97, 110, 101],
          List.replicate 5 Match.Correct)],
        guess := [], keyboard := Keyboard.new,
        phase := some GameState.Win }
      [99, 114, 97, 110, 101] (by decide)).2.2.2.2.1⟩

/-- Typing never changes the phase. -/
lemma stepRound_phase_type (W A : List (List Nat)) (st : Game) (c : Nat) :
    (stepRound W A st (Ev.type c)).phase = st.phase := by
  unfold stepRound
  split
  · rfl
  · dsimp only
    split <;> rfl

/-- Backspace never changes the phase. -/
lemma stepRound_phase_back (W A : List (List Nat)) (st : Game) :
    (stepRound W A st Ev.back).phase = st.phase := by
  unfold stepRound
  split
  · rfl
  · dsimp only

/-- C10: is_win and is_loose are defined (no panic from the unwrap of
the last history entry) exactly under a nonempty history; an accepted
submission always leaves the history nonempty, so the calls inside the
submission path are safe; and the step relation preserves the fact that
a terminal phase comes with a nonempty history, which is what makes the
is_win call of final_prompt (reached only once the phase is terminal)
safe as well. -/
theorem spec_C10 :
    (∀ gs : List (List Nat × List Match), gs ≠ [] →
      is_win gs ≠ none ∧ is_loose gs ≠ none) ∧
    (∀ (W A : List (List Nat)) (st : Game),
      is_valid_word W A st.guess = true →
      (Game.submitGuess W A st).guesses ≠ []) ∧
    (∀ (W A : List (List Nat)) (st : Game) (e : Ev),
      (st.phase ≠ none → st.guesses ≠ []) →
      ((stepRound W A st e).phase ≠ none →
        (stepRound W A st e).guesses ≠ [])) := by
  refine ⟨?_, ?_, ?_⟩
  · intro gs hgs
    constructor <;>
      simp [is_win, is_loose, Option.map_eq_none', List.getLast?_eq_none_iff,
        hgs]
  · intro W A st hv
    rw [submitGuess_valid W A st hv]
    simp
  · intro W A st e h1 h2
    cases hph : st.phase with
    | some x =>
      have hstep : stepRound W A st e = st := by simp [stepRound, hph]
      rw [hstep]
      exact h1 (by simp [hph])
    | none =>
      cases e with
      | type c =>
        exact absurd ((stepRound_phase_type W A st c).trans hph) h2
      | back =>
        exact absurd ((stepRound_phase_back W A st).trans hph) h2
      | enter =>
        by_cases hlen : st.guess.length = 5
        · by_cases hv : is_valid_word W A st.guess = true
          · have hstep : stepRound W A st Ev.enter =
                Game.submitGuess W A st := by
              simp [stepRound, hph, hlen]
            rw [hstep, submitGuess_valid W A st hv]
            simp
          · have hstep : stepRound W A st Ev.enter = st := by
              simp [stepRound, hph, hlen, Game.submitGuess, hv]
            rw [hstep] at h2
            exact absurd hph (by simpa using h2)
        · have hstep : stepRound W A st Ev.enter = st := by
            simp [stepRound, hph, hlen]
          rw [hstep] at h2
          exact absurd hph (by simpa using h2)

/-- Witness for C10: a one-entry history makes is_win defined; the
accepted submission of "crane" leaves a nonempty history; and stepping a
finished round (terminal phase, nonempty history) keeps the history
nonempty. -/
theorem spec_C10_witness :
    is_win [([99, 114, 97, 110, 101], List.replicate 5 Match.Correct)] ≠
      none ∧
    (Game.submitGuess [[99, 114, 97, 110, 101]] []
        { secret_word := [99, 114, 97, 110, 101], guesses := [],
          guess := [99, 114, 97, 110, 101], keyboard := Keyboard.new,
          phase := none }).guesses ≠ [] ∧
    (stepRound [[99, 114, 97, 110, 101]] []
        { secret_word := [99, 114, 97, 110, 101],
          guesses := [([99, 114, 97, 110, 101],
            List.replicate 5 Match.Correct)],
          guess := [], keyboard := Keyboard.new,
          phase := some GameState.Win } Ev.back).guesses ≠ [] :=
  ⟨(spec_C10.1 [([99, 114, 97, 110, 101], List.replicate 5 Match.Correct)]
      (by decide)).1,
    spec_C10.2.1 [[99, 114, 97, 110, 101]] []
      { secret_word := [99, 114, 97, 110, 101], guesses := [],
        guess := [99, 114, 97, 110, 101], keyboard := Keyboard.new,
        phase := none } (by decide),
    spec_C10.2.2 [[99, 114, 97, 110, 101]] []
      { secret_word := [99, 114, 97, 110, 101],
        guesses := [([99, 114, 97, 110, 101],
          List.replicate 5 Match.Correct)],
        guess := [], keyboard := Keyboard.new,
        phase := some GameState.Win } Ev.back (by decide) (by decide)⟩

/-- Witness for C4 at a fresh round with secret "crane" and the valid
guess "crane": the Won case of the characterization. -/
theorem spec_C4_witness :
    (Game.submitGuess [[99, 114, 97, 110, 101]] []
        { secret_word := [99, 114, 97, 110, 101], guesses := [],
          guess := [99, 114, 97, 110, 101], keyboard := Keyboard.new,
          phase := none }).phase = some GameState.Win ↔
      check_word [99, 114, 97, 110, 101] [99, 114, 97, 110, 101] =
        List.replicate 5 Match.Correct :=
  (spec_C4 [[99, 114, 97, 110, 101]] []
    { secret_word := [99, 114, 97, 110, 101], guesses := [],
      guess := [99, 114, 97, 110, 101], keyboard := Keyboard.new,
      phase := none } (by decide) rfl (by decide)).1
